import Mathlib

/-!
Verification development for the StayOnTop MyFitnessPal scraper
(src/clients/myfitnesspal/myfitnesspal_scraper.py).

The Python source is shallowly embedded below.  Strings are modelled as
Lean strings (lists of characters), numeric values as rationals, Python
dicts as insertion-ordered association lists or explicit functions, and
the arrow library's timestamps as integers (seconds since the epoch) for
the aggregation views and as calendar triples for the chunking importer.
-/

namespace StayOnTop

/-! ## Python string primitives -/

/-- Characters removed by Python str.strip(). -/
def isPySpace (c : Char) : Bool :=
  c = ' ' || c = '\t' || c = '\n' || c = '\x0d' || c = '\x0b' || c = '\x0c'

/-- Python str.strip(): drop whitespace from both ends. -/
def pyStrip (s : List Char) : List Char :=
  ((s.dropWhile isPySpace).reverse.dropWhile isPySpace).reverse

/-- Python str.rfind(c): highest index of c in the string, or -1. -/
def pyRfind : List Char → Char → Int
  | [], _ => -1
  | x :: xs, c =>
    let r := pyRfind xs c
    if 0 ≤ r then r + 1 else if x = c then 0 else -1

/-- Resolve a Python slice bound: negative indices count from the end,
and the result is clamped into the range 0..len. -/
def pySliceIdx (len : Int) (i : Int) : Nat :=
  (if i < 0 then max (len + i) 0 else min i len).toNat

/-- Python s[a:b] slicing (step 1) with negative-index handling. -/
def pySlice (s : List Char) (a b : Int) : List Char :=
  (s.take (pySliceIdx s.length b)).drop (pySliceIdx s.length a)

/-- Python str.lower(), character by character. -/
def pyLower (s : String) : String :=
  String.mk (s.data.map Char.toLower)

/-- split_into_food_name_and_qty from the source: split a food log
description at the last comma; the name is the text before it (stripped)
and the quantity the text starting two characters after it (stripped). -/
def split_into_food_name_and_qty (s : List Char) : List Char × List Char :=
  let last_comma_pos := pyRfind s ','
  (pyStrip (pySlice s 0 last_comma_pos),
   pyStrip (pySlice s (last_comma_pos + 2) s.length))

/-! ## Entry model -/

/-- The fixed metric key set FOOD_METRICS from the source. -/
def FOOD_METRICS : List String :=
  ["calories", "carbs", "fat", "protein", "sugar", "fiber", "sodium", "cholesterol"]

/-- FoodLogEntry: one raw exported row.  The numeric fields of the
underlying dict are kept in an insertion-ordered association list;
a key absent from the list models a key absent from the dict. -/
structure FoodLogEntry where
  food : String
  meal : String
  date : Int
  metrics : List (String × ℚ)
deriving DecidableEq

namespace FoodLogEntry

/-- Dict lookup entry[m] for a numeric field, with absent keys read as
zero (the import invariant coerces every metric to a number, and the
aggregations treat absent values as zero). -/
def metric (e : FoodLogEntry) (m : String) : ℚ :=
  (e.metrics.lookup m).getD 0

/-- Python (m in entry) for a numeric field. -/
def hasKey (e : FoodLogEntry) (m : String) : Bool :=
  (e.metrics.lookup m).isSome

/-- FoodLogEntry.get_name from the source. -/
def get_name (e : FoodLogEntry) : String :=
  String.mk (split_into_food_name_and_qty e.food.data).1

/-- FoodLogEntry.get_qty from the source. -/
def get_qty (e : FoodLogEntry) : String :=
  String.mk (split_into_food_name_and_qty e.food.data).2

/-- FoodLogEntry.get_meal from the source. -/
def get_meal (e : FoodLogEntry) : String :=
  pyLower e.meal

/-- FoodLogEntry.macros from the source: the sub-dict of the entry
restricted to the FOOD_METRICS keys. -/
def macros (e : FoodLogEntry) : List (String × ℚ) :=
  FOOD_METRICS.filterMap (fun k => (e.metrics.lookup k).map (fun v => (k, v)))

/-- FoodLogEntry.protein_to_fat_ratio from the source: defined only when
both the protein and fat keys are present; Python returns None
otherwise, modelled as Option. -/
def protein_to_fat_ratio (e : FoodLogEntry) : Option ℚ :=
  match e.metrics.lookup "protein", e.metrics.lookup "fat" with
  | some p, some f => some (p / max f 1)
  | _, _ => none

end FoodLogEntry

/-! ## Generic insertion sort

Python sorted() is a stable sort; sortBy places each element before the
first element of the sorted tail that it may precede, which is the same
stable result. -/

/-- Insert x into l before the first y with le x y. -/
def insertBy (le : α → α → Bool) (x : α) : List α → List α
  | [] => [x]
  | y :: ys => if le x y then x :: y :: ys else y :: insertBy le x ys

/-- Stable insertion sort with respect to le. -/
def sortBy (le : α → α → Bool) : List α → List α
  | [] => []
  | x :: xs => insertBy le x (sortBy le xs)

/-! ## Log collection -/

/-- FoodLog: an ordered collection of entries plus the two bounding
dates attached by the importer.  The date representation varies (arrow
objects are dynamically typed), so it is a parameter. -/
structure PyFoodLog (T : Type) where
  entries : List FoodLogEntry
  start_date : T
  end_date : T

/-- FoodLog as used by the aggregation views: the bounding dates are
arrow timestamps, modelled as seconds since the epoch. -/
def FoodLog := PyFoodLog Int

/-- FoodLog.get_unique_meal_names from the source: the sorted list of
the distinct lower-cased meal names present in the log. -/
def get_unique_meal_names (log : FoodLog) : List String :=
  sortBy (fun a b => decide (a ≤ b))
    ((log.entries.map (fun e => pyLower e.meal)).eraseDups)

/-! ## Time model (arrow library, modelled)

An arrow object is a UTC timestamp in whole seconds.  Only whole-second
arithmetic appears in the source paths under study. -/

/-- Seconds in a day. -/
def secPerDay : Int := 86400

/-- The midnight that starts the calendar day of timestamp t
(arrow span('day') start). -/
def floorDay (t : Int) : Int :=
  t - t % secPerDay

/-- Days since 1970-01-01 of the calendar day containing t. -/
def epochDay (t : Int) : Int :=
  t / secPerDay

/-- Python datetime.weekday(): Monday is 0.  1970-01-01 was a Thursday. -/
def pyWeekday (t : Int) : Int :=
  (epochDay t + 3) % 7

/-- Civil (proleptic Gregorian) date of a count of days since the epoch,
as (year, month, day).  Modelled from the standard days-to-civil
algorithm used by the underlying C library. -/
def civilFromDays (z0 : Int) : Int × Int × Int :=
  let z := z0 + 719468
  let era := z / 146097
  let doe := z - era * 146097
  let yoe := (doe - doe / 1460 + doe / 36524 - doe / 146096) / 365
  let y := yoe + era * 400
  let doy := doe - (365 * yoe + yoe / 4 - yoe / 100)
  let mp := (5 * doy + 2) / 153
  let d := doy - (153 * mp + 2) / 5 + 1
  let m := mp + (if mp < 10 then 3 else -9)
  (y + (if m ≤ 2 then 1 else 0), m, d)

/-- Left-pad a numeral with zeros. -/
def padNum (width : Nat) (n : Int) : String :=
  let s := toString n
  if s.length < width then String.mk (List.replicate (width - s.length) '0') ++ s else s

/-- English month names for the arrow MMMM format token. -/
def monthName (m : Int) : String :=
  match m with
  | 1 => "January" | 2 => "February" | 3 => "March" | 4 => "April"
  | 5 => "May" | 6 => "June" | 7 => "July" | 8 => "August"
  | 9 => "September" | 10 => "October" | 11 => "November" | 12 => "December"
  | _ => ""

/-- arrow format with DATE_FORMAT = M/D/YYYY. -/
def formatMDY (t : Int) : String :=
  let c := civilFromDays (epochDay t)
  toString c.2.1 ++ "/" ++ toString c.2.2 ++ "/" ++ padNum 4 c.1

/-- arrow format with MONTH_FORMAT = YYYY - MM - MMMM. -/
def formatMonth (t : Int) : String :=
  let c := civilFromDays (epochDay t)
  padNum 4 c.1 ++ " - " ++ padNum 2 c.2.1 ++ " - " ++ monthName c.2.1

/-- The arrow range loop `while current <= end`, one day at a time.
The fuel argument is an embedding artifact; dayRangeFrom passes enough
fuel for the loop to reach its exit condition. -/
def dayRangeAux (stop : Int) : Nat → Int → List Int
  | 0, _ => []
  | fuel + 1, cur => if cur ≤ stop then cur :: dayRangeAux stop fuel (cur + secPerDay) else []

/-- arrow Arrow.range('day', cur, stop), already floored: day starts
from cur stepping one day while the value does not pass stop. -/
def dayRangeFrom (cur stop : Int) : List Int :=
  dayRangeAux stop ((stop + secPerDay - cur).toNat) cur

/-- arrow Arrow.span_range('day', start, stop), keeping each span's
start: the start is floored to its day, then range is taken. -/
def daySpanStarts (start stop : Int) : List Int :=
  dayRangeFrom (floorDay start) stop

/-! ## daily_macros -/

/-- A Python scalar appearing in an output row (or passed as the
include_zero argument). -/
inductive Val where
  | num (q : ℚ)
  | str (s : String)
  | bool (b : Bool)
deriving DecidableEq

/-- Python truthiness for the values we model. -/
def Val.truthy : Val → Bool
  | .num q => decide (q ≠ 0)
  | .str s => decide (s ≠ "")
  | .bool b => b

/-- Python (v == 0) for a row value. -/
def Val.eqZero : Val → Bool
  | .num q => decide (q = 0)
  | _ => false

/-- An output row: a dict from field-name strings to scalars, in
insertion order. -/
abbrev Row := List (String × Val)

/-- The per-day accumulator default_macros_daily_entry(): a Counter for
the metric totals plus a 'meals' defaultdict(Counter); mealKeys records
the keys materialized in the 'meals' dict, in insertion order. -/
structure DayAcc where
  metric : String → ℚ
  mealMetric : String → String → ℚ
  mealKeys : List String

/-- A fresh per-day accumulator. -/
def DayAcc.empty : DayAcc :=
  ⟨fun _ => 0, fun _ _ => 0, []⟩

/-- Add one entry to a day's accumulator: every metric key present on
the entry is added to the day total and to that meal's sub-total; the
meal key materializes in the 'meals' dict as soon as one metric key is
present. -/
def DayAcc.add (acc : DayAcc) (e : FoodLogEntry) : DayAcc :=
  let meal := pyLower e.meal
  let touches := FOOD_METRICS.any (fun k => e.hasKey k)
  { metric := fun k =>
      if FOOD_METRICS.contains k then acc.metric k + e.metric k else acc.metric k
    mealMetric := fun mm k =>
      if mm = meal ∧ FOOD_METRICS.contains k then acc.mealMetric mm k + e.metric k
      else acc.mealMetric mm k
    mealKeys :=
      if touches ∧ ¬ acc.mealKeys.contains meal then acc.mealKeys ++ [meal]
      else acc.mealKeys }

/-- Python (token.lower() in name.lower()): case-insensitive substring
test. -/
def tokenInName (token name : String) : Bool :=
  decide ((pyLower token).data <:+: (pyLower name).data)

/-- The token filter of daily_macros: an entry contributes only when at
least one token occurs in its food name. -/
def entryPassesTokens (tokens : Option (List String)) (e : FoodLogEntry) : Bool :=
  match tokens with
  | none => true
  | some ts => ts.any (fun t => tokenInName t e.get_name)

/-- The day an entry is bucketed under: its millisecond timestamp is
divided by 1000 (Python 2 integer division) and the resulting arrow
object, at full second precision, is the dict key. -/
def entryDayKey (e : FoodLogEntry) : Int :=
  e.date / 1000

/-- The bucketing pass of daily_macros over the entry list. -/
def aggregateDays (log : FoodLog) (tokens : Option (List String)) : Int → DayAcc :=
  log.entries.foldl
    (fun days e =>
      if entryPassesTokens tokens e then
        Function.update days (entryDayKey e) ((days (entryDayKey e)).add e)
      else days)
    (fun _ => DayAcc.empty)

/-- Emit the row of one day of the calendar span. -/
def emitDayRow (days : Int → DayAcc) (meal_names : List String) (day : Int) : Row :=
  [("date", Val.str (formatMDY day)),
   ("start of week", Val.str (formatMDY (day - secPerDay * pyWeekday day))),
   ("month", Val.str (formatMonth day)),
   ("# of meals", Val.num ((days day).mealKeys.length : ℚ))]
  ++ FOOD_METRICS.map (fun k => (k, Val.num ((days day).metric k)))
  ++ (meal_names.map (fun mn =>
        FOOD_METRICS.map (fun k => (mn ++ " " ++ k, Val.num ((days day).mealMetric mn k))))).flatten

/-- The post-processing pass: blank every field of a row except date and
start of week. -/
def blankRow (row : Row) : Row :=
  row.map (fun kv => if kv.1 = "date" ∨ kv.1 = "start of week" then kv else (kv.1, Val.str ""))

/-- Whether a row's calories field equals zero (Python day['calories'] == 0). -/
def rowCaloriesZero (row : Row) : Bool :=
  ((row.lookup "calories").map Val.eqZero).getD false

/-- FoodLog.daily_macros from the source.  One row per day of the arrow
day span of [start_date, end_date]; afterwards every row whose calories
are zero is blanked when include_zero is falsy. -/
def daily_macros (log : FoodLog) (tokens : Option (List String)) (include_zero : Val) : List Row :=
  let days := aggregateDays log tokens
  let meal_names := get_unique_meal_names log
  let result := (daySpanStarts log.start_date log.end_date).map (emitDayRow days meal_names)
  result.map (fun row =>
    if rowCaloriesZero row ∧ ¬ include_zero.truthy then blankRow row else row)

/-- daily_macros with both optional arguments at their Python defaults;
the include_zero default in the source is the string 'False'. -/
def daily_macros_default (log : FoodLog) : List Row :=
  daily_macros log none (Val.str "False")

/-! ## unique_foods_sorted_by_frequency -/

/-- One transformed_entry row of unique_foods_sorted_by_frequency.  The
dynamically keyed dict fields are split out: mealFreq holds the
'<meal> frequency' keys, firstMacros the metric keys copied from the
first occurrence's macros(), and total / totalPercent / perServing the
'total <m>', 'total <m> percent' and 'total <m> percent per serving'
keys as functions of the metric name. -/
structure FoodRow where
  name : String
  frequency : Nat
  qty : String
  mealFreq : List (String × Nat)
  firstMacros : List (String × ℚ)
  total : String → ℚ
  totalPercent : String → ℚ
  perServing : String → ℚ
  proteinToFat : Option ℚ

/-- The totals Counter of the global pass: the grand total of each
metric over all entries (zero for keys outside FOOD_METRICS, which are
never materialized in the Counter). -/
def foodTotals (log : FoodLog) : String → ℚ := fun m =>
  if FOOD_METRICS.contains m then (log.entries.map (fun e => e.metric m)).sum else 0

/-- The transformed_entry built for the first occurrence of a food. -/
def initRow (meal_names : List String) (totals : String → ℚ) (e : FoodLogEntry) : FoodRow :=
  { name := e.get_name
    frequency := 1
    qty := e.get_qty
    mealFreq := meal_names.map (fun m => (m, if m = e.get_meal then 1 else 0))
    firstMacros := e.macros
    total := fun m => e.metric m
    totalPercent := fun m => e.metric m * 100 / max 1 (totals m)
    perServing := fun m => e.metric m * 100 / max 1 (totals m)
    proteinToFat := e.protein_to_fat_ratio }

/-- The in-place update of an existing row for a repeat occurrence of
its food: frequency, meal frequency and the running totals change; name,
qty, firstMacros and proteinToFat are left untouched. -/
def updateRow (totals : String → ℚ) (e : FoodLogEntry) (r : FoodRow) : FoodRow :=
  { r with
    frequency := r.frequency + 1
    mealFreq := r.mealFreq.map (fun p => if p.1 = e.get_meal then (p.1, p.2 + 1) else p)
    total := fun m => r.total m + e.metric m
    totalPercent := fun m => (r.total m + e.metric m) * 100 / max 1 (totals m)
    perServing := fun m =>
      ((r.total m + e.metric m) * 100 / max 1 (totals m)) / ((r.frequency : ℚ) + 1) }

/-- The per-food pass of unique_foods_sorted_by_frequency: the
unique_foods dict as a list of rows keyed by food name.  The source is
Python 2, whose dict iterates its values in an implementation-defined
hash-slot order; the insertion order used here fixes one admissible
order, so this list is faithful to the dict's contents (each keyed row
exactly) but its order is a model choice, not a program guarantee. -/
def buildRows (totals : String → ℚ) (meal_names : List String) :
    List FoodLogEntry → List FoodRow → List FoodRow
  | [], acc => acc
  | e :: rest, acc =>
    if acc.any (fun r => r.name = e.get_name) then
      buildRows totals meal_names rest
        (acc.map (fun r => if r.name = e.get_name then updateRow totals e r else r))
    else
      buildRows totals meal_names rest (acc ++ [initRow meal_names totals e])

/-- The sort key comparison of unique_foods_sorted_by_frequency:
frequency descending. -/
def rowLe (a b : FoodRow) : Bool :=
  decide (b.frequency ≤ a.frequency)

/-- FoodLog.unique_foods_sorted_by_frequency from the source: the rows
of the unique_foods dict, sorted by frequency descending (Python sorted
with reverse=True is stable).  The program's actual output is the
stable sort of whatever value order the Python 2 dict yields; it equals
this list up to a permutation fixed by that implementation-defined
order. -/
def unique_foods_sorted_by_frequency (log : FoodLog) : List FoodRow :=
  sortBy rowLe (buildRows (foodTotals log) (get_unique_meal_names log) log.entries [])

/-! ## Chunking importer (scrape_logs)

Window arithmetic is calendar arithmetic on arrow objects
(replace(years=+1) with day-of-month clamping), so here dates are
calendar triples ordered lexicographically; this order agrees with the
timestamp order of the corresponding midnights. -/

/-- A calendar date. -/
structure CalDate where
  year : Int
  month : Int
  day : Int
deriving DecidableEq

/-- Gregorian leap year. -/
def isLeap (y : Int) : Bool :=
  y % 4 = 0 ∧ (y % 100 ≠ 0 ∨ y % 400 = 0)

/-- Days in a month. -/
def daysInMonth (y m : Int) : Int :=
  if m = 2 then (if isLeap y then 29 else 28)
  else if m = 4 ∨ m = 6 ∨ m = 9 ∨ m = 11 then 30
  else 31

/-- Strict comparison of two dates (arrow < / >). -/
def calLt (a b : CalDate) : Bool :=
  decide (a.year < b.year) ||
    (decide (a.year = b.year) &&
      (decide (a.month < b.month) ||
        (decide (a.month = b.month) && decide (a.day < b.day))))

/-- arrow replace(years=+1) (dateutil relativedelta): same month, year
plus one, day clamped to the target month's length. -/
def addYears1 (d : CalDate) : CalDate :=
  ⟨d.year + 1, d.month, min d.day (daysInMonth (d.year + 1) d.month)⟩

/-- A date argument passed to scrape_logs: the date it denotes plus
whether the object supports the format() method probed by the sanity
check (a real arrow object does; a malformed argument does not). -/
structure DateArg where
  date : CalDate
  hasFormat : Bool
deriving DecidableEq

/-- replace(years=+1) applied to a date argument: the returned object
is of the same kind as the receiver. -/
def DateArg.addY (a : DateArg) : DateArg :=
  ⟨addYears1 a.date, a.hasFormat⟩

/-- The clipping step `if j > end_date: j = end_date`: note that the
end_date object itself is substituted. -/
def clipToEnd (endArg j : DateArg) : DateArg :=
  if calLt endArg.date j.date then endArg else j

/-- The while loop of scrape_logs.  Each iteration checks that i and j
support format() (raising ValueError otherwise), invokes the exporter
for the window [i, j], appends the returned rows, and advances the
window.  The error value carries the exporter calls already made before
the failure.  The fuel argument is an embedding artifact; scrape_logs
passes enough fuel for the loop to reach its exit condition. -/
def scrape_loop (exporter : CalDate → CalDate → List FoodLogEntry) (endArg : DateArg) :
    Nat → DateArg → DateArg → List (CalDate × CalDate) → List FoodLogEntry →
    Except (String × List (CalDate × CalDate)) (List (CalDate × CalDate) × List FoodLogEntry)
  | 0, _, _, calls, _ => .error ("insufficient fuel", calls)
  | fuel + 1, i, j, calls, es =>
    if calLt i.date endArg.date then
      if i.hasFormat then
        if j.hasFormat then
          scrape_loop exporter endArg fuel j (clipToEnd endArg j.addY)
            (calls ++ [(i.date, j.date)]) (es ++ exporter i.date j.date)
        else .error ("end_date needs to have a format() method", calls)
      else .error ("start_date needs to have a format() method", calls)
    else .ok (calls, es)

/-- MyFitnessPalScraper.scrape_logs from the source.  The exporter (the
CasperJS subprocess plus CSV read-back) is an external collaborator and
is a parameter; now stands for arrow.now(), used when a date argument is
omitted.  The result pairs the list of exporter invocations made (the
observable side effect) with the returned FoodLog, whose bounding dates
are the originally requested ones. -/
def scrape_logs (exporter : CalDate → CalDate → List FoodLogEntry) (now : CalDate)
    (start_arg end_arg : Option DateArg) :
    Except (String × List (CalDate × CalDate)) (List (CalDate × CalDate) × PyFoodLog DateArg) :=
  let s := start_arg.getD ⟨now, true⟩
  let e := end_arg.getD ⟨now, true⟩
  let fuel := (e.date.year - s.date.year).toNat + 2
  match scrape_loop exporter e fuel s (clipToEnd e s.addY) [] [] with
  | .error x => .error x
  | .ok (calls, es) => .ok (calls, ⟨es, s, e⟩)

/-! ## Statement-side definitions

The definitions below are formalizations of phrases of the specification
(not of program code); they exist only to state claims against the
embedded program. -/

/-- Follows the spec's words for claim C2: the number of whole calendar
days in the half-open span from start to stop, for midnight-aligned
bounds. -/
def specHalfOpenDays (start stop : Int) : Nat :=
  ((stop - start) / secPerDay).toNat

/-- Follows the spec's words for claim C3: adding half a year (six
months, dateutil-style with day clamping) to a date, used to build a
range spanning exactly two and a half years. -/
def addMonths6 (d : CalDate) : CalDate :=
  if d.month ≤ 6 then ⟨d.year, d.month + 6, min d.day (daysInMonth d.year (d.month + 6))⟩
  else ⟨d.year + 1, d.month - 6, min d.day (daysInMonth (d.year + 1) (d.month - 6))⟩

/-! ## Concrete inputs used by witnesses and counterexamples -/

/-- An empty log whose reporting range is the single epoch instant:
its calendar span is exactly the day 1970-01-01, with zero calories. -/
def logZeroDay : FoodLog := ⟨[], 0, 0⟩

/-- An empty log over the half-open range [1970-01-01, 1970-01-04):
three whole calendar days. -/
def logThreeDays : FoodLog := ⟨[], 0, 259200⟩

/-- A log in which the food named Apple occurs twice, with quantity
strings 1 cup (first) and 2 cup (last). -/
def logApples : FoodLog :=
  ⟨[⟨"Apple, 1 cup", "Lunch", 86400000, [("calories", 95), ("fat", 1)]⟩,
    ⟨"Apple, 2 cup", "Dinner", 86400000, [("calories", 190), ("fat", 2)]⟩],
   0, 172800⟩

/-- A log with two distinct foods used to instantiate the aggregation
theorems. -/
def logFoods : FoodLog :=
  ⟨[⟨"Apple, 1 cup", "Lunch", 86400000, [("calories", 95), ("fat", 1)]⟩,
    ⟨"Bread, 1 slice", "Breakfast", 86400000, [("calories", 80), ("protein", 3), ("fat", 0)]⟩,
    ⟨"Apple, 2 cup", "Dinner", 86400000, [("calories", 190), ("fat", 2)]⟩],
   0, 172800⟩

/-- A log with two distinct foods, each occurring exactly once, with
first-appearance order Apple before Bread: their unique-foods rows tie
at frequency 1. -/
def logTwoFoods : FoodLog :=
  ⟨[⟨"Apple, 1 cup", "Lunch", 86400000, [("calories", 95), ("fat", 1)]⟩,
    ⟨"Bread, 1 slice", "Dinner", 86400000, [("calories", 80), ("fat", 0)]⟩],
   0, 172800⟩

/-- An entry carrying protein 10 and fat 0. -/
def entryProtein10Fat0 : FoodLogEntry :=
  ⟨"Egg, 2", "Breakfast", 0, [("protein", 10), ("fat", 0)]⟩

/-- An entry with no fat key. -/
def entryNoFat : FoodLogEntry :=
  ⟨"Egg, 2", "Breakfast", 0, [("protein", 10)]⟩

/-! # Lemmas about the string split -/

theorem pyRfind_of_not_mem {c : Char} : ∀ {l : List Char}, c ∉ l → pyRfind l c = -1
  | [], _ => rfl
  | x :: xs, h => by
    have hx : ¬ x = c := fun he => h (he ▸ List.mem_cons_self x xs)
    have ht : c ∉ xs := fun hm => h (List.mem_cons_of_mem _ hm)
    simp [pyRfind, pyRfind_of_not_mem ht, hx]

theorem pyRfind_cons (x : Char) (l : List Char) (c : Char) :
    pyRfind (x :: l) c =
      if 0 ≤ pyRfind l c then pyRfind l c + 1 else if x = c then 0 else -1 := rfl

theorem pyRfind_append_last (n q : List Char) (hq : ',' ∉ q) :
    pyRfind (n ++ ',' :: ' ' :: q) ',' = n.length := by
  induction n with
  | nil =>
    rw [List.nil_append, pyRfind_cons, pyRfind_cons, pyRfind_of_not_mem hq]
    decide
  | cons x xs ih =>
    rw [List.cons_append, pyRfind_cons, ih, if_pos (Int.ofNat_nonneg xs.length)]
    simp

/-- Claim C4 (amended): for a description of the canonical shape
name ++ ', ' ++ qty in which the quantity contains no comma and neither
part carries leading or trailing whitespace, the split happens at the
last comma and name() ++ ', ' ++ quantity() reconstructs the original
description exactly (food names may themselves contain commas). -/
theorem split_reconstruction (n q : List Char) (hq : ',' ∉ q)
    (hn : pyStrip n = n) (hqs : pyStrip q = q) :
    split_into_food_name_and_qty (n ++ ',' :: ' ' :: q) = (n, q) ∧
    (split_into_food_name_and_qty (n ++ ',' :: ' ' :: q)).1 ++
      ',' :: ' ' :: (split_into_food_name_and_qty (n ++ ',' :: ' ' :: q)).2 =
      n ++ ',' :: ' ' :: q := by
  have hp := pyRfind_append_last n q hq
  have hlen : (n ++ ',' :: ' ' :: q).length = n.length + 2 + q.length := by
    simp; omega
  have hsplit : split_into_food_name_and_qty (n ++ ',' :: ' ' :: q) = (n, q) := by
    have h0 : pySliceIdx ((n ++ ',' :: ' ' :: q).length : Int) 0 = 0 := by
      simp [pySliceIdx]
    have h1 : pySliceIdx ((n ++ ',' :: ' ' :: q).length : Int) (n.length : Int) = n.length := by
      simp only [pySliceIdx, hlen]
      omega
    have h2 : pySliceIdx ((n ++ ',' :: ' ' :: q).length : Int) ((n.length : Int) + 2) =
        n.length + 2 := by
      simp only [pySliceIdx, hlen]
      omega
    have h3 : pySliceIdx ((n ++ ',' :: ' ' :: q).length : Int)
        ((n ++ ',' :: ' ' :: q).length : Int) = (n ++ ',' :: ' ' :: q).length := by
      simp only [pySliceIdx]
      omega
    have htake : (n ++ ',' :: ' ' :: q).take n.length = n := List.take_left n _
    have hdrop : (n ++ ',' :: ' ' :: q).drop (n.length + 2) = q := by
      have : n ++ ',' :: ' ' :: q = (n ++ [',', ' ']) ++ q := by simp
      rw [this]
      have hl : (n ++ [',', ' ']).length = n.length + 2 := by simp
      rw [← hl, List.drop_left]
    simp only [split_into_food_name_and_qty, pySlice, hp, h0, h1, h2, h3,
      List.drop_zero, List.take_length, htake, hdrop, hn, hqs]
  refine ⟨hsplit, ?_⟩
  rw [hsplit]

/-- Claim C10: for a description containing no comma at all, rfind
returns -1, which Python slicing reads as an index from the end: the
name is the description without its final character (stripped) and the
quantity the description without its first character (stripped). -/
theorem split_no_comma (s : List Char) (h : ',' ∉ s) :
    split_into_food_name_and_qty s = (pyStrip s.dropLast, pyStrip (s.drop 1)) := by
  have hp : pyRfind s ',' = -1 := pyRfind_of_not_mem h
  have h0 : pySliceIdx (s.length : Int) 0 = 0 := by simp [pySliceIdx]
  have hm1 : pySliceIdx (s.length : Int) (-1) = s.length - 1 := by
    simp only [pySliceIdx]
    omega
  have h1 : pySliceIdx (s.length : Int) 1 = min 1 s.length := by
    simp only [pySliceIdx]
    omega
  have hlen : pySliceIdx (s.length : Int) (s.length : Int) = s.length := by
    simp only [pySliceIdx]
    omega
  have htake : s.take (s.length - 1) = s.dropLast := (List.dropLast_eq_take s).symm
  have hdrop : (s.take s.length).drop (min 1 s.length) = s.drop 1 := by
    cases s with
    | nil => simp
    | cons x xs => simp [Nat.min_eq_left (Nat.succ_le_succ (Nat.zero_le _))]
  simp only [split_into_food_name_and_qty, pySlice, hp]
  norm_num
  rw [h0, hm1, h1, hlen, List.drop_zero, htake, hdrop]
  exact ⟨rfl, by rw [List.drop_one]⟩

/-- Claim C4 counterexample: the description a,b,c has a name part with
an embedded comma (the computed name is a,b), yet
name() ++ ', ' ++ quantity() is 'a,b, ', not the original description:
the slice start last_comma_pos+2 assumes a space after the last comma
and otherwise swallows the first quantity character. -/
theorem split_reconstruction_counterexample :
    ',' ∈ (split_into_food_name_and_qty ("a,b,c".data)).1 ∧
    (split_into_food_name_and_qty ("a,b,c".data)).1 = "a,b".data ∧
    (split_into_food_name_and_qty ("a,b,c".data)).2 = "".data ∧
    (split_into_food_name_and_qty ("a,b,c".data)).1 ++
      ',' :: ' ' :: (split_into_food_name_and_qty ("a,b,c".data)).2 ≠ "a,b,c".data := by
  decide

/-- Witness for split_reconstruction at the spec's own example
Peanut Butter, Crunchy, 2 tbsp. -/
theorem split_reconstruction_witness :
    (',' ∉ "2 tbsp".data) ∧
    split_into_food_name_and_qty ("Peanut Butter, Crunchy".data ++ ',' :: ' ' :: "2 tbsp".data) =
      ("Peanut Butter, Crunchy".data, "2 tbsp".data) := by
  refine ⟨by decide, ?_⟩
  exact (split_reconstruction ("Peanut Butter, Crunchy".data) ("2 tbsp".data)
    (by decide) (by decide) (by decide)).1

/-- Witness for split_no_comma at the comma-free description Apple:
the name is Appl and the quantity pple. -/
theorem split_no_comma_witness :
    (',' ∉ "Apple".data) ∧
    split_into_food_name_and_qty ("Apple".data) =
      (pyStrip ("Apple".data).dropLast, pyStrip (("Apple".data).drop 1)) :=
  ⟨by decide, split_no_comma ("Apple".data) (by decide)⟩

/-- Claim C9: protein_to_fat_ratio returns protein / max(fat, 1) when
both the protein and fat keys are present, and an absent result (None)
when either is missing. -/
theorem protein_to_fat_ratio_spec :
    (∀ (e : FoodLogEntry) (p f : ℚ),
        e.metrics.lookup "protein" = some p → e.metrics.lookup "fat" = some f →
        e.protein_to_fat_ratio = some (p / max f 1)) ∧
    (∀ e : FoodLogEntry,
        e.metrics.lookup "protein" = none ∨ e.metrics.lookup "fat" = none →
        e.protein_to_fat_ratio = none) := by
  constructor
  · intro e p f hp hf
    simp [FoodLogEntry.protein_to_fat_ratio, hp, hf]
  · intro e h
    rcases h with h | h <;> simp [FoodLogEntry.protein_to_fat_ratio, h]

/-- Witness for protein_to_fat_ratio_spec: protein 10 and fat 0 yield
10 (the floor of 1 applies), and a missing fat key yields no result. -/
theorem protein_to_fat_ratio_witness :
    entryProtein10Fat0.protein_to_fat_ratio = some 10 ∧
    entryNoFat.protein_to_fat_ratio = none := by
  constructor
  · have h := protein_to_fat_ratio_spec.1 entryProtein10Fat0 10 0 (by decide) (by decide)
    rw [h]
    norm_num
  · exact protein_to_fat_ratio_spec.2 entryNoFat (Or.inr (by decide))

/-- Claim C1 (code bug demonstrated): on a log whose single calendar day
has total calories zero, calling daily_macros with include_zero omitted
leaves the non-identifying fields unblanked (the Python default is the
truthy string 'False', so the blanking branch is dead), while passing
the boolean False blanks every field except date and start of week as
the spec describes. -/
theorem daily_macros_include_zero_default_bug :
    ((daily_macros_default logZeroDay).head?.bind (fun r => r.lookup "calories"))
      = some (Val.num 0) ∧
    ((daily_macros_default logZeroDay).head?.map (fun r =>
        r.all (fun kv => kv.1 = "date" ∨ kv.1 = "start of week" ∨ kv.2 = Val.str "")))
      = some false ∧
    ((daily_macros logZeroDay none (Val.bool false)).head?.map (fun r =>
        r.all (fun kv => kv.1 = "date" ∨ kv.1 = "start of week" ∨ kv.2 = Val.str "")))
      = some true := by
  decide

/-- Claim C2 counterexample: an empty log bounded by the midnights
1970-01-01 and 1970-01-04 spans three half-open calendar days, yet
daily_macros emits four rows — the arrow day range is inclusive of the
day containing end_date. -/
theorem daily_macros_length_counterexample :
    (daily_macros_default logThreeDays).length = 4 ∧
    specHalfOpenDays 0 259200 = 3 ∧ (4 : Nat) ≠ 3 := by
  decide

theorem dayRangeAux_length :
    ∀ (fuel : Nat) (cur stop : Int), stop + secPerDay - cur ≤ (fuel : Int) * secPerDay →
    (dayRangeAux stop fuel cur).length =
      if cur ≤ stop then ((stop - cur) / secPerDay).toNat + 1 else 0 := by
  intro fuel
  induction fuel with
  | zero =>
    intro cur stop h
    have hs : secPerDay = 86400 := rfl
    rw [hs] at h
    simp only [dayRangeAux, List.length_nil]
    rw [if_neg (by omega)]
  | succ k ih =>
    intro cur stop h
    have hs : secPerDay = 86400 := rfl
    by_cases hc : cur ≤ stop
    · have hrec := ih (cur + secPerDay) stop (by rw [hs] at h ⊢; omega)
      rw [hs] at hrec
      simp only [dayRangeAux, if_pos hc, List.length_cons, hs, hrec]
      by_cases hc2 : cur + 86400 ≤ stop
      · rw [if_pos hc2]
        omega
      · rw [if_neg hc2]
        omega
    · simp only [dayRangeAux, if_neg hc, List.length_nil]

theorem dayRangeFrom_length (cur stop : Int) (h : cur ≤ stop) :
    (dayRangeFrom cur stop).length = ((stop - cur) / secPerDay).toNat + 1 := by
  have hs : secPerDay = 86400 := rfl
  rw [dayRangeFrom, dayRangeAux_length _ _ _ (by rw [hs]; omega), if_pos h]

/-- Claim C2 (amended): daily_macros emits one row per calendar day of
the closed arrow span: its length is one more than the number of whole
days between the midnight starting start_date's day and end_date
(inclusive of the day containing end_date), whenever start_date is not
after end_date.  For midnight-aligned bounds this is one more than the
half-open day count the spec states. -/
theorem daily_macros_length (log : FoodLog) (tokens : Option (List String)) (iz : Val)
    (h : log.start_date ≤ log.end_date) :
    (daily_macros log tokens iz).length =
      ((log.end_date - floorDay log.start_date) / secPerDay).toNat + 1 := by
  have hfl : floorDay log.start_date ≤ log.end_date := by
    have hs : secPerDay = 86400 := rfl
    simp only [floorDay, hs]
    omega
  simp only [daily_macros, daySpanStarts, List.length_map]
  exact dayRangeFrom_length _ _ hfl

/-- Witness for daily_macros_length on the three-midnights log. -/
theorem daily_macros_length_witness :
    (logThreeDays.start_date ≤ logThreeDays.end_date) ∧
    (daily_macros logThreeDays none (Val.str "False")).length =
      ((logThreeDays.end_date - floorDay logThreeDays.start_date) / secPerDay).toNat + 1 :=
  ⟨by decide, daily_macros_length logThreeDays none (Val.str "False") (by decide)⟩

/-! # Lemmas about the chunking importer -/

theorem calLt_iff (a b : CalDate) :
    calLt a b = true ↔
      (a.year < b.year ∨ (a.year = b.year ∧
        (a.month < b.month ∨ (a.month = b.month ∧ a.day < b.day)))) := by
  simp [calLt]

theorem calLt_irrefl (a : CalDate) : calLt a a = false := by
  rw [← Bool.not_eq_true, calLt_iff]
  omega

theorem calLt_asymm {a b : CalDate} (h : calLt a b = true) : calLt b a = false := by
  rw [calLt_iff] at h
  rw [← Bool.not_eq_true, calLt_iff]
  omega

theorem calLt_trans {a b c : CalDate} (h1 : calLt a b = true) (h2 : calLt b c = true) :
    calLt a c = true := by
  rw [calLt_iff] at h1 h2 ⊢
  omega

theorem calLt_addYears1 (d : CalDate) : calLt d (addYears1 d) = true := by
  rw [calLt_iff]
  left
  simp [addYears1]

theorem addYears1_month (d : CalDate) : (addYears1 d).month = d.month := rfl

theorem addYears1_year (d : CalDate) : (addYears1 d).year = d.year + 1 := rfl

theorem calLt_addMonths6 (d : CalDate) : calLt d (addMonths6 d) = true := by
  rw [calLt_iff]
  by_cases h6 : d.month ≤ 6 <;> simp [addMonths6, h6]

theorem addMonths6_lt_addYears1 (d : CalDate) : calLt (addMonths6 d) (addYears1 d) = true := by
  rw [calLt_iff]
  by_cases h6 : d.month ≤ 6 <;> simp [addMonths6, addYears1, h6]

theorem scrape_loop_step {ex : CalDate → CalDate → List FoodLogEntry} {endArg i j : DateArg}
    {fuel : Nat} {calls : List (CalDate × CalDate)} {es : List FoodLogEntry}
    (hlt : calLt i.date endArg.date = true) (hif : i.hasFormat = true)
    (hjf : j.hasFormat = true) :
    scrape_loop ex endArg (fuel + 1) i j calls es =
      scrape_loop ex endArg fuel j (clipToEnd endArg j.addY)
        (calls ++ [(i.date, j.date)]) (es ++ ex i.date j.date) := by
  simp [scrape_loop, hlt, hif, hjf]

theorem scrape_loop_done {ex : CalDate → CalDate → List FoodLogEntry} {endArg i j : DateArg}
    {fuel : Nat} {calls : List (CalDate × CalDate)} {es : List FoodLogEntry}
    (hlt : calLt i.date endArg.date = false) :
    scrape_loop ex endArg (fuel + 1) i j calls es = .ok (calls, es) := by
  simp [scrape_loop, hlt]

theorem scrape_loop_err_start {ex : CalDate → CalDate → List FoodLogEntry} {endArg i j : DateArg}
    {fuel : Nat} {calls : List (CalDate × CalDate)} {es : List FoodLogEntry}
    (hlt : calLt i.date endArg.date = true) (hif : i.hasFormat = false) :
    scrape_loop ex endArg (fuel + 1) i j calls es =
      .error ("start_date needs to have a format() method", calls) := by
  simp [scrape_loop, hlt, hif]

/-- Claim C3: a request whose end date lies exactly two and a half years
after its start date (two year-steps plus six months) makes exactly
three exporter invocations, with windows (start, start+1y),
(start+1y, start+2y) and (start+2y, end) — the last clipped to the
requested end date — and the returned log carries the originally
requested bounds and the concatenation of the three exports in window
order. -/
theorem scrape_logs_chunking (ex : CalDate → CalDate → List FoodLogEntry) (now : CalDate)
    (s e : DateArg) (hsf : s.hasFormat = true) (hef : e.hasFormat = true)
    (he : e.date = addMonths6 (addYears1 (addYears1 s.date))) :
    scrape_logs ex now (some s) (some e) =
      .ok ([(s.date, addYears1 s.date),
            (addYears1 s.date, addYears1 (addYears1 s.date)),
            (addYears1 (addYears1 s.date), e.date)],
           ⟨ex s.date (addYears1 s.date) ++
              ex (addYears1 s.date) (addYears1 (addYears1 s.date)) ++
              ex (addYears1 (addYears1 s.date)) e.date,
            s, e⟩) := by
  have hmX1 : (addYears1 (addYears1 s.date)).month = s.date.month := rfl
  have f1 : calLt s.date (addYears1 s.date) = true := calLt_addYears1 _
  have f2 : calLt (addYears1 s.date) (addYears1 (addYears1 s.date)) = true := calLt_addYears1 _
  have f3 : calLt (addYears1 (addYears1 s.date)) e.date = true := by
    rw [he]
    exact calLt_addMonths6 _
  have f4 : calLt e.date (addYears1 (addYears1 (addYears1 s.date))) = true := by
    rw [he]
    exact addMonths6_lt_addYears1 _
  have g1 : calLt s.date e.date = true := calLt_trans f1 (calLt_trans f2 f3)
  have g2 : calLt (addYears1 s.date) e.date = true := calLt_trans f2 f3
  have c1 : calLt e.date (addYears1 s.date) = false := calLt_asymm g2
  have c2 : calLt e.date (addYears1 (addYears1 s.date)) = false := calLt_asymm f3
  have hstop : calLt e.date e.date = false := calLt_irrefl _
  have hj0 : clipToEnd e s.addY = ⟨addYears1 s.date, s.hasFormat⟩ := by
    simp [clipToEnd, DateArg.addY, c1]
  have hj1 : clipToEnd e (DateArg.addY ⟨addYears1 s.date, s.hasFormat⟩) =
      ⟨addYears1 (addYears1 s.date), s.hasFormat⟩ := by
    simp [clipToEnd, DateArg.addY, c2]
  have hj2 : clipToEnd e (DateArg.addY ⟨addYears1 (addYears1 s.date), s.hasFormat⟩) = e := by
    simp [clipToEnd, DateArg.addY, f4]
  have hfuel : (e.date.year - s.date.year).toNat + 2 =
      (if s.date.month ≤ 6 then 4 else 5) := by
    have hy : e.date.year = (if s.date.month ≤ 6 then s.date.year + 2 else s.date.year + 3) := by
      rw [he]
      by_cases h6 : s.date.month ≤ 6 <;>
        simp [addMonths6, addYears1, hmX1, h6, addYears1_year] <;> omega
    rw [hy]
    by_cases h6 : s.date.month ≤ 6 <;> simp [h6] <;> omega
  have hloop : ∀ k : Nat,
      scrape_loop ex e (k + 4) s (clipToEnd e s.addY) [] [] =
        .ok ([(s.date, addYears1 s.date),
              (addYears1 s.date, addYears1 (addYears1 s.date)),
              (addYears1 (addYears1 s.date), e.date)],
             ex s.date (addYears1 s.date) ++
               ex (addYears1 s.date) (addYears1 (addYears1 s.date)) ++
               ex (addYears1 (addYears1 s.date)) e.date) := by
    intro k
    rw [hj0]
    have step1 := @scrape_loop_step ex e s ⟨addYears1 s.date, s.hasFormat⟩ (k + 3) [] [] g1 hsf hsf
    rw [step1, hj1]
    have step2 := @scrape_loop_step ex e ⟨addYears1 s.date, s.hasFormat⟩
      ⟨addYears1 (addYears1 s.date), s.hasFormat⟩ (k + 2)
      ([] ++ [(s.date, addYears1 s.date)]) ([] ++ ex s.date (addYears1 s.date)) g2 hsf hsf
    rw [step2, hj2]
    have step3 := @scrape_loop_step ex e ⟨addYears1 (addYears1 s.date), s.hasFormat⟩ e (k + 1)
      (([] ++ [(s.date, addYears1 s.date)]) ++
        [(addYears1 s.date, addYears1 (addYears1 s.date))])
      (([] ++ ex s.date (addYears1 s.date)) ++
        ex (addYears1 s.date) (addYears1 (addYears1 s.date))) f3 hsf hef
    rw [step3, scrape_loop_done hstop]
    simp
  simp only [scrape_logs, Option.getD_some]
  rw [hfuel]
  by_cases h6 : s.date.month ≤ 6
  · rw [if_pos h6, show (4 : Nat) = 0 + 4 from rfl, hloop 0]
  · rw [if_neg h6, show (5 : Nat) = 1 + 4 from rfl, hloop 1]

/-- Witness for scrape_logs_chunking: 2020-01-01 to 2022-07-01 is a
two-and-a-half-year range and yields the three windows of the claim. -/
theorem scrape_logs_chunking_witness :
    scrape_logs (fun _ _ => ([] : List FoodLogEntry)) ⟨2025, 1, 1⟩
        (some ⟨⟨2020, 1, 1⟩, true⟩) (some ⟨⟨2022, 7, 1⟩, true⟩) =
      .ok ([(⟨2020, 1, 1⟩, addYears1 ⟨2020, 1, 1⟩),
            (addYears1 ⟨2020, 1, 1⟩, addYears1 (addYears1 ⟨2020, 1, 1⟩)),
            (addYears1 (addYears1 ⟨2020, 1, 1⟩), ⟨2022, 7, 1⟩)],
           ⟨[] ++ [] ++ [], ⟨⟨2020, 1, 1⟩, true⟩, ⟨⟨2022, 7, 1⟩, true⟩⟩) :=
  scrape_logs_chunking _ _ _ _ rfl rfl (by decide)

/-- Claim C6 (amended): when the start_date argument lacks the format
capability and the window loop runs at all (start_date < end_date),
scrape_logs raises the ValueError naming start_date before any exporter
invocation.  No such guarantee exists for end_date: the end_date object
is only probed once a window is clipped to it, which can happen after
earlier windows have already invoked the exporter, or never. -/
theorem scrape_logs_malformed_start (ex : CalDate → CalDate → List FoodLogEntry)
    (now : CalDate) (s e : DateArg)
    (hs : s.hasFormat = false) (hlt : calLt s.date e.date = true) :
    scrape_logs ex now (some s) (some e) =
      .error ("start_date needs to have a format() method", []) := by
  simp only [scrape_logs, Option.getD_some]
  rw [show (e.date.year - s.date.year).toNat + 2 =
        ((e.date.year - s.date.year).toNat + 1) + 1 from rfl]
  rw [scrape_loop_err_start hlt hs]

/-- Witness for scrape_logs_malformed_start. -/
theorem scrape_logs_malformed_start_witness :
    ((⟨⟨2020, 1, 1⟩, false⟩ : DateArg).hasFormat = false) ∧
    (calLt ⟨2020, 1, 1⟩ ⟨2020, 6, 1⟩ = true) ∧
    scrape_logs (fun _ _ => ([] : List FoodLogEntry)) ⟨2025, 1, 1⟩
        (some ⟨⟨2020, 1, 1⟩, false⟩) (some ⟨⟨2020, 6, 1⟩, true⟩) =
      .error ("start_date needs to have a format() method", []) :=
  ⟨rfl, by decide, scrape_logs_malformed_start _ _ _ _ rfl (by decide)⟩

/-- Claim C6 counterexample: with a valid start 2020-01-01 and a
malformed end_date denoting 2021-07-01 (a year and a half later), the
validation error for end_date is only raised in the second window, after
the first window's exporter invocation has already been made — not
before any exporter invocation as the claim states. -/
theorem scrape_logs_malformed_end_counterexample :
    scrape_logs (fun _ _ => ([] : List FoodLogEntry)) ⟨2025, 1, 1⟩
        (some ⟨⟨2020, 1, 1⟩, true⟩) (some ⟨⟨2021, 7, 1⟩, false⟩) =
      .error ("end_date needs to have a format() method",
              [(⟨2020, 1, 1⟩, ⟨2021, 1, 1⟩)]) ∧
    ([((⟨2020, 1, 1⟩ : CalDate), (⟨2021, 1, 1⟩ : CalDate))] ≠ []) := by
  constructor
  · rfl
  · simp

/-! # Lemmas about the stable sort -/

theorem mem_insertBy (le : α → α → Bool) (x a : α) :
    ∀ (l : List α), a ∈ insertBy le x l ↔ a = x ∨ a ∈ l
  | [] => by simp [insertBy]
  | y :: ys => by
    by_cases h : le x y = true
    · simp only [insertBy, if_pos h, List.mem_cons]
    · simp only [insertBy, if_neg h, List.mem_cons, mem_insertBy le x a ys]
      tauto

theorem perm_insertBy (le : α → α → Bool) (x : α) :
    ∀ (l : List α), (insertBy le x l).Perm (x :: l)
  | [] => List.Perm.refl _
  | y :: ys => by
    by_cases h : le x y = true
    · rw [insertBy, if_pos h]
    · rw [insertBy, if_neg h]
      exact ((perm_insertBy le x ys).cons y).trans (List.Perm.swap x y ys)

theorem perm_sortBy (le : α → α → Bool) : ∀ (l : List α), (sortBy le l).Perm l
  | [] => List.Perm.refl _
  | x :: xs =>
    (perm_insertBy le x (sortBy le xs)).trans ((perm_sortBy le xs).cons x)

theorem pairwise_insertBy_row (x : FoodRow) :
    ∀ (l : List FoodRow), List.Pairwise (fun a b => b.frequency ≤ a.frequency) l →
    List.Pairwise (fun a b => b.frequency ≤ a.frequency) (insertBy rowLe x l)
  | [], _ => by simp [insertBy]
  | y :: ys, h => by
    by_cases hle : rowLe x y = true
    · have hxy : y.frequency ≤ x.frequency := by simpa [rowLe] using hle
      rw [insertBy, if_pos hle]
      refine List.Pairwise.cons ?_ h
      intro z hz
      rcases List.mem_cons.mp hz with rfl | hz
      · exact hxy
      · exact le_trans (List.rel_of_pairwise_cons h hz) hxy
    · have hyx : x.frequency ≤ y.frequency := by
        simp only [rowLe, decide_eq_true_eq] at hle
        omega
      rw [insertBy, if_neg hle]
      refine List.Pairwise.cons ?_ (pairwise_insertBy_row x ys h.of_cons)
      intro z hz
      rcases (mem_insertBy rowLe x z ys).mp hz with rfl | hz
      · exact hyx
      · exact List.rel_of_pairwise_cons h hz

theorem pairwise_sortBy_row :
    ∀ (l : List FoodRow),
    List.Pairwise (fun a b => b.frequency ≤ a.frequency) (sortBy rowLe l)
  | [] => List.Pairwise.nil
  | x :: xs => pairwise_insertBy_row x (sortBy rowLe xs) (pairwise_sortBy_row xs)

theorem filter_insertBy_freq (f : Nat) (x : FoodRow) :
    ∀ (l : List FoodRow),
    (insertBy rowLe x l).filter (fun r => r.frequency == f) =
      if x.frequency = f then x :: l.filter (fun r => r.frequency == f)
      else l.filter (fun r => r.frequency == f)
  | [] => by
    by_cases hf : x.frequency = f <;> simp [insertBy, List.filter_cons, hf]
  | y :: ys => by
    by_cases hle : rowLe x y = true
    · rw [insertBy, if_pos hle]
      by_cases hf : x.frequency = f <;> simp [List.filter_cons, hf]
    · have hgt : x.frequency < y.frequency := by
        simp only [rowLe, decide_eq_true_eq] at hle
        omega
      rw [insertBy, if_neg hle, List.filter_cons, filter_insertBy_freq f x ys]
      by_cases hf : x.frequency = f
      · have hyf : (y.frequency == f) = false := by
          simp only [beq_eq_false_iff_ne, ne_eq]
          omega
        simp [hyf, hf, List.filter_cons]
      · simp [hf, List.filter_cons]

theorem filter_sortBy_freq (f : Nat) :
    ∀ (l : List FoodRow),
    (sortBy rowLe l).filter (fun r => r.frequency == f) =
      l.filter (fun r => r.frequency == f)
  | [] => rfl
  | x :: xs => by
    rw [sortBy, filter_insertBy_freq, filter_sortBy_freq f xs, List.filter_cons]
    by_cases hf : x.frequency = f
    · rw [if_pos hf, if_pos (by simpa using hf)]
    · rw [if_neg hf, if_neg (by simpa using hf)]

/-! # Lemmas about the unique-foods pass -/

theorem buildRows_cons (t : String → ℚ) (mn : List String) (e : FoodLogEntry)
    (rest : List FoodLogEntry) (acc : List FoodRow) :
    buildRows t mn (e :: rest) acc =
      if acc.any (fun r => r.name = e.get_name) then
        buildRows t mn rest
          (acc.map (fun r => if r.name = e.get_name then updateRow t e r else r))
      else buildRows t mn rest (acc ++ [initRow mn t e]) := rfl

theorem updateRow_name (t : String → ℚ) (e : FoodLogEntry) (r : FoodRow) :
    (updateRow t e r).name = r.name := rfl

theorem updateRow_qty (t : String → ℚ) (e : FoodLogEntry) (r : FoodRow) :
    (updateRow t e r).qty = r.qty := rfl

theorem initRow_name (mn : List String) (t : String → ℚ) (e : FoodLogEntry) :
    (initRow mn t e).name = e.get_name := rfl

theorem map_update_names (t : String → ℚ) (e : FoodLogEntry) (acc : List FoodRow) :
    (acc.map (fun r => if r.name = e.get_name then updateRow t e r else r)).map
        (fun r => r.name) =
      acc.map (fun r => r.name) := by
  rw [List.map_map]
  apply List.map_congr_left
  intro r _
  by_cases h : r.name = e.get_name <;> simp [h, updateRow_name]

theorem buildRows_qty (t : String → ℚ) (mn : List String) :
    ∀ (rest processed : List FoodLogEntry) (acc : List FoodRow),
    (∀ r ∈ acc, (processed.find? (fun e2 => e2.get_name == r.name)).map
        FoodLogEntry.get_qty = some r.qty) →
    (∀ e2 ∈ processed, ∃ r ∈ acc, r.name = e2.get_name) →
    ∀ r ∈ buildRows t mn rest acc,
      ((processed ++ rest).find? (fun e2 => e2.get_name == r.name)).map
        FoodLogEntry.get_qty = some r.qty
  | [], processed, acc, hq, _, r, hr => by
    rw [List.append_nil]
    exact hq r hr
  | e :: rest, processed, acc, hq, hcov, r, hr => by
    rw [List.append_cons]
    have hq1 : ∀ r2 ∈ acc, ((processed ++ [e]).find? (fun e2 => e2.get_name == r2.name)).map
        FoodLogEntry.get_qty = some r2.qty := by
      intro r2 hr2
      have h := hq r2 hr2
      rcases ho : processed.find? (fun e2 => e2.get_name == r2.name) with _ | e0
      · rw [ho] at h
        simp at h
      · rw [List.find?_append, ho, Option.or]
        rw [ho] at h
        exact h
    rw [buildRows_cons] at hr
    by_cases hmem : acc.any (fun r2 => r2.name = e.get_name) = true
    · rw [if_pos hmem] at hr
      refine buildRows_qty t mn rest (processed ++ [e]) _ ?_ ?_ r hr
      · intro r2 hr2
        obtain ⟨r3, hr3, rfl⟩ := List.mem_map.mp hr2
        by_cases h3 : r3.name = e.get_name
        · rw [if_pos h3, updateRow_name, updateRow_qty]
          exact hq1 r3 hr3
        · rw [if_neg h3]
          exact hq1 r3 hr3
      · intro e2 he2
        rcases List.mem_append.mp he2 with he2 | he2
        · obtain ⟨r3, hr3, hn3⟩ := hcov e2 he2
          refine ⟨if r3.name = e.get_name then updateRow t e r3 else r3,
            List.mem_map.mpr ⟨r3, hr3, rfl⟩, ?_⟩
          have hpres : (if r3.name = e.get_name then updateRow t e r3 else r3).name = r3.name := by
            by_cases h3 : r3.name = e.get_name <;> simp [h3, updateRow_name]
          rw [hpres, hn3]
        · obtain ⟨r3, hr3, hn3⟩ := List.any_eq_true.mp hmem
          simp only [decide_eq_true_eq] at hn3
          rw [List.mem_singleton.mp he2]
          refine ⟨if r3.name = e.get_name then updateRow t e r3 else r3,
            List.mem_map.mpr ⟨r3, hr3, rfl⟩, ?_⟩
          have hpres : (if r3.name = e.get_name then updateRow t e r3 else r3).name = r3.name := by
            by_cases h3 : r3.name = e.get_name <;> simp [h3, updateRow_name]
          rw [hpres, hn3]
    · rw [if_neg hmem] at hr
      have hnone : processed.find? (fun e2 => e2.get_name == e.get_name) = none := by
        rw [List.find?_eq_none]
        intro e0 he0 hp
        apply hmem
        obtain ⟨r3, hr3, hn3⟩ := hcov e0 he0
        simp only [beq_iff_eq] at hp
        exact List.any_eq_true.mpr ⟨r3, hr3, by simp [hn3, hp]⟩
      refine buildRows_qty t mn rest (processed ++ [e]) _ ?_ ?_ r hr
      · intro r2 hr2
        rcases List.mem_append.mp hr2 with hr2 | hr2
        · exact hq1 r2 hr2
        · rw [List.mem_singleton.mp hr2, initRow_name, List.find?_append, hnone, Option.or]
          simp [List.find?_cons, initRow]
      · intro e2 he2
        rcases List.mem_append.mp he2 with he2 | he2
        · obtain ⟨r3, hr3, hn3⟩ := hcov e2 he2
          exact ⟨r3, List.mem_append_left _ hr3, hn3⟩
        · rw [List.mem_singleton.mp he2]
          exact ⟨initRow mn t e, List.mem_append_right _ (List.mem_singleton_self _),
            initRow_name mn t e⟩

/-- Claim C5 (amended): for every food name present in the output of
unique_foods_sorted_by_frequency, the qty field of that food's row is
the quantity string of the FIRST-seen occurrence of that food in the
entry collection (the update branch for repeat occurrences never touches
qty). -/
theorem unique_foods_qty (log : FoodLog) (n : String)
    (h : n ∈ (unique_foods_sorted_by_frequency log).map (fun r => r.name)) :
    ((unique_foods_sorted_by_frequency log).find? (fun r => r.name == n)).map
        (fun r => r.qty) =
      (log.entries.find? (fun e => e.get_name == n)).map FoodLogEntry.get_qty := by
  obtain ⟨r, hr, rfl⟩ := List.mem_map.mp h
  have hsome : ((unique_foods_sorted_by_frequency log).find?
      (fun x => x.name == r.name)).isSome = true :=
    List.find?_isSome.mpr ⟨r, hr, by simp⟩
  obtain ⟨r0, hr0⟩ := Option.isSome_iff_exists.mp hsome
  have hname0 : r0.name = r.name := by
    have := List.find?_some hr0
    simpa using this
  have hmem0 : r0 ∈ buildRows (foodTotals log) (get_unique_meal_names log) log.entries [] :=
    ((perm_sortBy rowLe _).mem_iff).mp (List.mem_of_find?_eq_some hr0)
  have hqty := buildRows_qty (foodTotals log) (get_unique_meal_names log) log.entries [] []
    (by intro r2 hr2; exact absurd hr2 (List.not_mem_nil r2))
    (by intro e2 he2; exact absurd he2 (List.not_mem_nil e2))
    r0 hmem0
  rw [List.nil_append, hname0] at hqty
  rw [hr0]
  simp only [Option.map_some']
  exact hqty.symm

/-- Claim C5 counterexample: a log in which Apple occurs first with
quantity 1 cup and last with quantity 2 cup; the output row for Apple
carries qty 1 cup, the first-seen quantity, not the last-seen 2 cup. -/
theorem unique_foods_qty_counterexample :
    (((unique_foods_sorted_by_frequency logApples).find?
        (fun r => r.name == "Apple")).map (fun r => r.qty)) = some "1 cup" ∧
    ((logApples.entries.reverse.find? (fun e => e.get_name == "Apple")).map
        FoodLogEntry.get_qty) = some "2 cup" ∧
    some "1 cup" ≠ some ("2 cup" : String) := by
  refine ⟨by decide, by decide, by decide⟩

/-- Witness for unique_foods_qty at the two-Apple log. -/
theorem unique_foods_qty_witness :
    ("Apple" ∈ (unique_foods_sorted_by_frequency logApples).map (fun r => r.name)) ∧
    ((unique_foods_sorted_by_frequency logApples).find? (fun r => r.name == "Apple")).map
        (fun r => r.qty) =
      (logApples.entries.find? (fun e => e.get_name == "Apple")).map FoodLogEntry.get_qty :=
  ⟨by decide, unique_foods_qty logApples "Apple" (by decide)⟩

theorem updateRow_total (t : String → ℚ) (e : FoodLogEntry) (r : FoodRow) (m : String) :
    (updateRow t e r).total m = r.total m + e.metric m := rfl

theorem initRow_total (mn : List String) (t : String → ℚ) (e : FoodLogEntry) (m : String) :
    (initRow mn t e).total m = e.metric m := rfl

theorem map_update_id (t : String → ℚ) (e : FoodLogEntry) (l : List FoodRow)
    (hl : ¬ e.get_name ∈ l.map (fun r => r.name)) :
    l.map (fun r => if r.name = e.get_name then updateRow t e r else r) = l := by
  have h : ∀ r ∈ l, (if r.name = e.get_name then updateRow t e r else r) = r := by
    intro r hr
    rw [if_neg]
    intro hc
    exact hl (List.mem_map.mpr ⟨r, hr, hc⟩)
  exact (List.map_congr_left h).trans (List.map_id' l)

theorem sum_total_update (t : String → ℚ) (e : FoodLogEntry) (m : String) :
    ∀ (acc : List FoodRow), ((acc.map (fun r => r.name)).Nodup) →
    (e.get_name ∈ acc.map (fun r => r.name)) →
    ((acc.map (fun r => if r.name = e.get_name then updateRow t e r else r)).map
        (fun r => r.total m)).sum =
      ((acc.map (fun r => r.total m)).sum) + e.metric m
  | [], _, hm => absurd hm (List.not_mem_nil _)
  | r :: rs, hnd, hm => by
    rw [List.map_cons] at hnd
    obtain ⟨hnh, hnt⟩ := List.nodup_cons.mp hnd
    rw [List.map_cons, List.map_cons, List.map_cons, List.sum_cons, List.sum_cons]
    by_cases h : r.name = e.get_name
    · rw [if_pos h, map_update_id t e rs (h ▸ hnh), updateRow_total]
      ring
    · rw [if_neg h]
      have hm2 : e.get_name ∈ rs.map (fun r2 => r2.name) := by
        rw [List.map_cons] at hm
        rcases List.mem_cons.mp hm with hh | hh
        · exact absurd hh.symm h
        · exact hh
      rw [sum_total_update t e m rs hnt hm2]
      ring

theorem buildRows_total (t : String → ℚ) (mn : List String) (m : String) :
    ∀ (rest : List FoodLogEntry) (acc : List FoodRow),
    ((acc.map (fun r => r.name)).Nodup) →
    (((buildRows t mn rest acc).map (fun r => r.total m)).sum) =
      ((acc.map (fun r => r.total m)).sum) + ((rest.map (fun e => e.metric m)).sum)
  | [], acc, _ => by simp [buildRows]
  | e :: rest, acc, hnd => by
    rw [buildRows_cons]
    by_cases hmem : acc.any (fun r => r.name = e.get_name) = true
    · rw [if_pos hmem]
      have he : e.get_name ∈ acc.map (fun r => r.name) := by
        obtain ⟨r, hr, hrn⟩ := List.any_eq_true.mp hmem
        simp only [decide_eq_true_eq] at hrn
        exact List.mem_map.mpr ⟨r, hr, hrn⟩
      rw [buildRows_total t mn m rest _ (by rw [map_update_names]; exact hnd),
        sum_total_update t e m acc hnd he, List.map_cons, List.sum_cons]
      ring
    · rw [if_neg hmem]
      have hne : ¬ e.get_name ∈ acc.map (fun r => r.name) := by
        intro hmm
        apply hmem
        obtain ⟨r, hr, hrn⟩ := List.mem_map.mp hmm
        exact List.any_eq_true.mpr ⟨r, hr, by simp [hrn]⟩
      have hnd2 : (((acc ++ [initRow mn t e]).map (fun r => r.name)).Nodup) := by
        rw [List.map_append, List.nodup_append]
        refine ⟨hnd, by simp, ?_⟩
        intro a ha hb
        simp only [List.map_cons, List.map_nil, List.mem_singleton, initRow_name] at hb
        rw [hb] at ha
        exact hne ha
      rw [buildRows_total t mn m rest _ hnd2, List.map_append, List.sum_append]
      simp only [List.map_cons, List.map_nil, List.sum_cons, List.sum_nil, initRow_total]
      ring

/-- Claim C7: for every metric in FOOD_METRICS, the sum over the rows of
unique_foods_sorted_by_frequency of the running 'total metric' field
equals the grand total of that metric over all entries computed by the
global pass. -/
theorem unique_foods_total_sum (log : FoodLog) (m : String) (hm : m ∈ FOOD_METRICS) :
    (((unique_foods_sorted_by_frequency log).map (fun r => r.total m)).sum) =
      foodTotals log m := by
  rw [unique_foods_sorted_by_frequency,
    ((perm_sortBy rowLe _).map (fun r => r.total m)).sum_eq,
    buildRows_total (foodTotals log) (get_unique_meal_names log) m log.entries []
      (by simp)]
  have hc : FOOD_METRICS.contains m = true := List.elem_iff.mpr hm
  simp [foodTotals, hc, hm]

/-- Witness for unique_foods_total_sum: calories on a three-entry log. -/
theorem unique_foods_total_sum_witness :
    ("calories" ∈ FOOD_METRICS) ∧
    (((unique_foods_sorted_by_frequency logFoods).map (fun r => r.total "calories")).sum) =
      foodTotals logFoods "calories" :=
  ⟨by decide, unique_foods_total_sum logFoods "calories" (by decide)⟩

/-- Claim C8 (amended): the program returns the stable descending sort
of the unique_foods rows in whatever values() order the Python 2 dict
yields — an implementation-defined hash-slot order, modelled as an
arbitrary permutation vs of the built rows.  For every admissible order
the output is non-increasing in frequency; rows of equal frequency
appear in the order of vs itself (the stable sort preserves the dict's
iteration order among ties), and the output is a permutation of the
insertion-order model's output.  First-appearance order among ties is
NOT guaranteed. -/
theorem unique_foods_freq_sorted (log : FoodLog) (vs : List FoodRow)
    (hv : vs.Perm (buildRows (foodTotals log) (get_unique_meal_names log) log.entries [])) :
    List.Pairwise (fun a b => b.frequency ≤ a.frequency) (sortBy rowLe vs) ∧
    (∀ f : Nat, (sortBy rowLe vs).filter (fun r => r.frequency == f) =
      vs.filter (fun r => r.frequency == f)) ∧
    (sortBy rowLe vs).Perm (unique_foods_sorted_by_frequency log) :=
  ⟨pairwise_sortBy_row vs, fun f => filter_sortBy_freq f vs,
    (perm_sortBy rowLe vs).trans (hv.trans (perm_sortBy rowLe _).symm)⟩

/-- Witness for unique_foods_freq_sorted: the reversed row list of the
two-food log is an admissible dict order, and its sort is non-increasing
in frequency and a permutation of the insertion-order output. -/
theorem unique_foods_freq_sorted_witness :
    (((buildRows (foodTotals logTwoFoods) (get_unique_meal_names logTwoFoods)
        logTwoFoods.entries []).reverse).Perm
      (buildRows (foodTotals logTwoFoods) (get_unique_meal_names logTwoFoods)
        logTwoFoods.entries [])) ∧
    List.Pairwise (fun a b => b.frequency ≤ a.frequency)
      (sortBy rowLe ((buildRows (foodTotals logTwoFoods) (get_unique_meal_names logTwoFoods)
        logTwoFoods.entries []).reverse)) ∧
    (sortBy rowLe ((buildRows (foodTotals logTwoFoods) (get_unique_meal_names logTwoFoods)
        logTwoFoods.entries []).reverse)).Perm
      (unique_foods_sorted_by_frequency logTwoFoods) :=
  ⟨List.reverse_perm _,
    (unique_foods_freq_sorted logTwoFoods _ (List.reverse_perm _)).1,
    (unique_foods_freq_sorted logTwoFoods _ (List.reverse_perm _)).2.2⟩

/-- Claim C8 counterexample: on a log whose two foods Apple and Bread
each occur once (rows tying at frequency 1, first appearance Apple then
Bread), the reversed row list is an admissible Python 2 dict values()
order — the dict iterates in hash-slot order, which the program does
not control — and its stable sort lists Bread before Apple.  So the
claim's tie-breaking conjunct, that equal-frequency rows appear in
first-appearance order, is not a property the program guarantees. -/
theorem unique_foods_tie_order_counterexample :
    (logTwoFoods.entries.map FoodLogEntry.get_name = ["Apple", "Bread"]) ∧
    ((buildRows (foodTotals logTwoFoods) (get_unique_meal_names logTwoFoods)
        logTwoFoods.entries []).map (fun r => r.name) = ["Apple", "Bread"]) ∧
    (((buildRows (foodTotals logTwoFoods) (get_unique_meal_names logTwoFoods)
        logTwoFoods.entries []).reverse).Perm
      (buildRows (foodTotals logTwoFoods) (get_unique_meal_names logTwoFoods)
        logTwoFoods.entries [])) ∧
    ((sortBy rowLe ((buildRows (foodTotals logTwoFoods) (get_unique_meal_names logTwoFoods)
        logTwoFoods.entries []).reverse)).map (fun r => r.name) = ["Bread", "Apple"]) ∧
    ((["Bread", "Apple"] : List String) ≠ ["Apple", "Bread"]) :=
  ⟨by decide, by decide, List.reverse_perm _, by decide, by decide⟩

end StayOnTop
